import Mathlib

/-!
Verification of the naive Bayesian classifier implemented in `bayesian.go`
(package `bayesian`).  The Go code is shallowly embedded: `float64`
arithmetic is idealized as arithmetic in a linear ordered field (`ℚ` where
everything is rational, `ℝ` where logarithms and exponentials appear),
Go maps are modelled as association lists, and Go panics and recoverable
errors are modelled as `Except.error` values.  Since the error checks in
the Go code precede every mutation, an operation that returns
`Except.error` leaves the classifier state unchanged.
-/

/-- Error and panic outcomes of the Go code: `panicked` models a Go
`panic(msg)`, the other constructors model `ErrClassExists` and
`ErrAlreadyConverted`. -/
inductive GoError where
  | panicked (msg : String)
  | classExists
  | alreadyConverted
deriving DecidableEq

/-- `classData` holds the frequency data for words in a particular class
(Go struct `classData`): `Freqs` maps words to accumulated weight,
`FreqTfs` maps words to their per-document term-frequency samples, and
`Total` is the accumulated word count. -/
structure classData (α : Type) where
  Freqs : List (String × α)
  FreqTfs : List (String × List α)
  Total : Int
deriving DecidableEq

/-- The classifier state (Go struct `Classifier`); the mutex field is a
pure-concurrency artifact and is not part of the functional state. -/
structure Classifier (α : Type) where
  Classes : List String
  learned : Int
  seen : Int
  datas : List (String × classData α)
  tfIdf : Bool
  DidConvertTfIdf : Bool
deriving DecidableEq

/-- The container written to the gob stream (Go struct
`serializableClassifier`). -/
structure serializableClassifier (α : Type) where
  Classes : List String
  Learned : Int
  Seen : Int
  Datas : List (String × classData α)
  TfIdf : Bool
  DidConvertTfIdf : Bool
deriving DecidableEq

deriving instance DecidableEq for Except

/-- `defaultProb` (Go constant `1e-11`). -/
def defaultProb {α : Type} [LinearOrderedField α] : α := 1 / 100000000000

/-- Go map read with zero value: `m[k]` returns the stored value, or
`dflt` when the key is absent. -/
def lookupD {β : Type} (l : List (String × β)) (k : String) (dflt : β) : β :=
  (List.lookup k l).getD dflt

/-- `newClassData` (Go): a fresh zero-valued class record. -/
def newClassData {α : Type} : classData α := ⟨[], [], 0⟩

/-- `getWordProb` (Go method `classData.getWordProb`): Laplace-smoothed
word probability, with the tiny default when the class is empty. -/
def classData.getWordProb {α : Type} [LinearOrderedField α]
    (d : classData α) (word : String) : α :=
  if d.Total = 0 ∨ d.Freqs.length = 0 then defaultProb
  else (lookupD d.Freqs word 0 + 1) / ((d.Total : α) + (d.Freqs.length : α))

/-- One iteration of the Go `findMax` loop at index `i`, carrying the
incumbent index and strictness. -/
def stepFn {α : Type} [LinearOrder α] [Inhabited α]
    (scores : List α) (i : Nat) (p : Nat × Bool) : Nat × Bool :=
  if scores.getD p.1 default < scores.getD i default then (i, true)
  else if scores.getD p.1 default = scores.getD i default then (p.1, false)
  else p

/-- The Go `findMax` loop over the remaining indices. -/
def findMaxAux {α : Type} [LinearOrder α] [Inhabited α]
    (scores : List α) : Nat × Bool → List Nat → Nat × Bool
  | p, [] => p
  | p, i :: rest => findMaxAux scores (stepFn scores i p) rest

/-- `findMax` (Go function `findMax`): scans indices `1 .. len-1`,
starting from incumbent `(0, true)`. -/
def findMax {α : Type} [LinearOrder α] [Inhabited α] (scores : List α) : Nat × Bool :=
  findMaxAux scores (0, true) (List.range' 1 (scores.length - 1))

/-- Loop invariant of `findMax` after the first `m` entries have been
scanned: the incumbent index is the least arg-max of the prefix, and the
strict flag records whether that maximum is so far unique. -/
def MaxInv {α : Type} [LinearOrder α] [Inhabited α]
    (scores : List α) (m : Nat) (p : Nat × Bool) : Prop :=
  p.1 < m ∧
  (∀ j, j < m → scores.getD j default ≤ scores.getD p.1 default) ∧
  (∀ j, j < p.1 → scores.getD j default < scores.getD p.1 default) ∧
  (p.2 = true ↔ ∀ j, j < m → j ≠ p.1 →
    scores.getD j default < scores.getD p.1 default)

/-- Go map access `c.datas[cls]` (for classes actually present in the
map; absent classes yield a zero-valued record). -/
def getData {α : Type} (c : Classifier α) (cls : String) : classData α :=
  (List.lookup cls c.datas).getD newClassData

/-- The sum of all class totals, as accumulated by the loop in
`getPriors`. -/
def totalsSum {α : Type} (c : Classifier α) : Int :=
  (c.Classes.map (fun cls => (getData c cls).Total)).sum

/-- The Laplace-smoothed prior of one class, as computed for each entry
by `getPriors`. -/
def priorOf {α : Type} [LinearOrderedField α] (c : Classifier α) (cls : String) : α :=
  (((getData c cls).Total : α) + 1) / ((totalsSum c : α) + (c.Classes.length : α))

/-- `getPriors` (Go method `Classifier.getPriors`). -/
def getPriors {α : Type} [LinearOrderedField α] (c : Classifier α) : List α :=
  c.Classes.map (priorOf c)

/-- `newClassifier` (Go): panics unless at least two pairwise distinct
classes are given; otherwise builds the zero-valued state. -/
def newClassifier {α : Type} (tfIdf : Bool) (classes : List String) :
    Except GoError (Classifier α) :=
  if classes.length < 2 then .error (.panicked ("provide at least two classes"))
  else if ¬ classes.Nodup then .error (.panicked ("classes must be unique"))
  else .ok ⟨classes, 0, 0, classes.map (fun cls => (cls, newClassData)), tfIdf, false⟩

/-- `AddClass` (Go method `Classifier.AddClass`). -/
def AddClass {α : Type} (c : Classifier α) (cls : String) :
    Except GoError (Classifier α) :=
  if c.DidConvertTfIdf = true then .error .alreadyConverted
  else if (List.lookup cls c.datas).isSome then .error .classExists
  else .ok { c with Classes := c.Classes ++ [cls], datas := c.datas ++ [(cls, newClassData)] }

/-- Go map increment `m[k] += v` on an association list. -/
def bump {α : Type} [Add α] (l : List (String × α)) (k : String) (v : α) :
    List (String × α) :=
  match l with
  | [] => [(k, v)]
  | (k', v') :: t => if k = k' then (k', v' + v) :: t else (k', v') :: bump t k v

/-- Go append `m[k] = append(m[k], v)` on an association list of sample
sequences. -/
def bumpTf {α : Type} (l : List (String × List α)) (k : String) (v : α) :
    List (String × List α) :=
  match l with
  | [] => [(k, [v])]
  | (k', vs) :: t => if k = k' then (k', vs ++ [v]) :: t else (k', vs) :: bumpTf t k v

/-- Go map assignment `m[k] = v` on an association list. -/
def setKey {α : Type} (l : List (String × α)) (k : String) (v : α) :
    List (String × α) :=
  match l with
  | [] => [(k, v)]
  | (k', v') :: t => if k = k' then (k', v) :: t else (k', v') :: setKey t k v

/-- In-place mutation of the class record the Go code reaches through
`data := c.datas[which]`. -/
def updateData {α : Type} (c : Classifier α) (which : String)
    (f : classData α → classData α) : Classifier α :=
  { c with datas := c.datas.map (fun p => if p.1 = which then (p.1, f p.2) else p) }

/-- `Observe` (Go method `Classifier.Observe`): adds `count` to the
word's frequency and to the class total. -/
def Observe {α : Type} [LinearOrderedField α] (c : Classifier α)
    (word : String) (count : Int) (which : String) : Classifier α :=
  updateData c which (fun d =>
    { d with Freqs := bump d.Freqs word (count : α), Total := d.Total + count })

/-- The distinct words of a document, in order of first occurrence
(the key set of the Go `docTf` map). -/
def distinctWords (doc : List String) : List String :=
  doc.foldl (fun acc w => if w ∈ acc then acc else acc ++ [w]) []

/-- The term-frequency bookkeeping phase of `Learn` in TF-IDF mode: for
each distinct word of the document, append `count/docLen` to its sample
sequence. -/
def learnTf {α : Type} [LinearOrderedField α] (doc : List String)
    (d : classData α) : classData α :=
  (distinctWords doc).foldl
    (fun d w =>
      { d with FreqTfs := bumpTf d.FreqTfs w ((doc.count w : α) / (doc.length : α)) })
    d

/-- The raw-count phase of `Learn`: `Freqs[word]++` and `Total++` for
every word occurrence. -/
def learnCount {α : Type} [LinearOrderedField α] (doc : List String)
    (d : classData α) : classData α :=
  doc.foldl (fun d w => { d with Freqs := bump d.Freqs w 1, Total := d.Total + 1 }) d

/-- The TF-IDF sample collection of `Learn`, active only in TF-IDF mode. -/
def learnTfPhase {α : Type} [LinearOrderedField α] (c : Classifier α)
    (doc : List String) (which : String) : Classifier α :=
  if c.tfIdf = true then updateData c which (learnTf doc) else c

/-- `learned++` at the end of `Learn`. -/
def incLearned {α : Type} (c : Classifier α) : Classifier α :=
  { c with learned := c.learned + 1 }

/-- `Learn` (Go method `Classifier.Learn`): panics when called on an
already-converted TF-IDF classifier, otherwise records TF samples (in
TF-IDF mode), accumulates raw counts and increments `learned`. -/
def Learn {α : Type} [LinearOrderedField α] (c : Classifier α)
    (doc : List String) (which : String) : Except GoError (Classifier α) :=
  if c.tfIdf = true ∧ c.DidConvertTfIdf = true then
    .error (.panicked
      ("Cannot call ConvertTermsFreqToTfIdf more than once. Reset and relearn to reconvert."))
  else .ok (incLearned (updateData (learnTfPhase c doc which) which (learnCount doc)))

/-- `log1p` (Go `math.Log1p`), idealized over the reals. -/
noncomputable def log1p (x : ℝ) : ℝ := Real.log (1 + x)

/-- The TF-IDF transform applied to a single term-frequency sample:
`log1p(tf) * log1p(learned / classTotal)`. -/
noncomputable def tfIdfWeight (learned : Int) (total : Int) (tf : ℝ) : ℝ :=
  log1p tf * log1p ((learned : ℝ) / (total : ℝ))

/-- The per-class body of `ConvertTermsFreqToTfIdf`: every TF sample is
replaced by its TF-IDF weight, and `Freqs[w]` is set to the sum of the
transformed samples of `w`. -/
noncomputable def convertClassData (learned : Int) (d : classData ℝ) : classData ℝ :=
  { Freqs := d.FreqTfs.foldl
      (fun fs p => setKey fs p.1 ((p.2.map (tfIdfWeight learned d.Total)).sum)) d.Freqs,
    FreqTfs := d.FreqTfs.map (fun p => (p.1, p.2.map (tfIdfWeight learned d.Total))),
    Total := d.Total }

/-- The state produced by a successful `ConvertTermsFreqToTfIdf`. -/
noncomputable def convertAll (c : Classifier ℝ) : Classifier ℝ :=
  { c with datas := c.datas.map (fun p => (p.1, convertClassData c.learned p.2)),
           DidConvertTfIdf := true }

/-- `ConvertTermsFreqToTfIdf` (Go method): panics on a second call,
otherwise applies the TF-IDF transform to every class and sets
`DidConvertTfIdf`. -/
noncomputable def ConvertTermsFreqToTfIdf (c : Classifier ℝ) : Except GoError (Classifier ℝ) :=
  if c.DidConvertTfIdf = true then
    .error (.panicked
      ("Cannot call ConvertTermsFreqToTfIdf more than once. Reset and relearn to reconvert."))
  else .ok (convertAll c)

/-- The raw linear-domain score vector of `ProbScores` and
`SafeProbScores`: `score[j] = prior[j] * Π_word wordProb`. -/
def probRawScores {α : Type} [LinearOrderedField α] (c : Classifier α)
    (doc : List String) : List α :=
  c.Classes.map (fun cls =>
    doc.foldl (fun s w => s * (getData c cls).getWordProb w) (priorOf c cls))

/-- The log-domain score vector of `LogScores` and `SafeProbScores`:
`score[j] = log(prior[j]) + Σ_word log(wordProb)`. -/
noncomputable def logRawScores (c : Classifier ℝ) (doc : List String) : List ℝ :=
  c.Classes.map (fun cls =>
    doc.foldl (fun s w => s + Real.log ((getData c cls).getWordProb w))
      (Real.log (priorOf c cls)))

/-- The guard shared by the three scoring operations: a TF-IDF
classifier must have been converted. -/
def notConvertedGuard {α : Type} (c : Classifier α) : Prop :=
  c.tfIdf = true ∧ c.DidConvertTfIdf = false

instance {α : Type} (c : Classifier α) : Decidable (notConvertedGuard c) := by
  unfold notConvertedGuard
  infer_instance

/-- `LogScores` (Go method `Classifier.LogScores`). -/
noncomputable def LogScores (c : Classifier ℝ) (doc : List String) :
    Except GoError (List ℝ × Nat × Bool) :=
  if notConvertedGuard c then
    .error (.panicked
      ("Using a TF-IDF classifier. Please call ConvertTermsFreqToTfIdf before calling LogScores."))
  else .ok (logRawScores c doc, (findMax (logRawScores c doc)).1,
            (findMax (logRawScores c doc)).2)

/-- The underflow fallback and normalization logic of `ProbScores`
applied to the raw score vector. -/
def probCore {α : Type} [LinearOrderedField α] [Inhabited α] (scores : List α) :
    List α × Nat × Bool :=
  if scores.sum = 0 then
    (List.replicate scores.length (1 / (scores.length : α)), 0, false)
  else
    (scores.map (fun s => s / scores.sum),
     (findMax (scores.map (fun s => s / scores.sum))).1,
     (findMax (scores.map (fun s => s / scores.sum))).2)

/-- `ProbScores` (Go method `Classifier.ProbScores`). -/
def ProbScores {α : Type} [LinearOrderedField α] [Inhabited α] (c : Classifier α)
    (doc : List String) : Except GoError (List α × Nat × Bool) :=
  if notConvertedGuard c then
    .error (.panicked
      ("Using a TF-IDF classifier. Please call ConvertTermsFreqToTfIdf before calling ProbScores."))
  else .ok (probCore (probRawScores c doc))

/-- `logScoresToProbs` (Go function): exponential renormalization of the
log-domain scores, subtracting the maximum log-score first. -/
noncomputable def logScoresToProbs (logScores : List ℝ) : List ℝ :=
  ((logScores.map (fun x => Real.exp (x - (logScores.drop 1).foldl max (logScores.getD 0 0)))).map
    (fun p => p / (logScores.map (fun x =>
      Real.exp (x - (logScores.drop 1).foldl max (logScores.getD 0 0)))).sum))

/-- The comparison step of `SafeProbScores` in the non-zero-sum case:
report underflow when the linear-domain arg-max or strictness disagrees
with the log-domain one. -/
noncomputable def probCompare (scoresN logScores : List ℝ) : List ℝ × Nat × Bool × Bool :=
  if (findMax scoresN).1 ≠ (findMax logScores).1 ∨
     (findMax scoresN).2 ≠ (findMax logScores).2 then
    (logScoresToProbs logScores, (findMax logScores).1, (findMax logScores).2, true)
  else
    (scoresN, (findMax scoresN).1, (findMax scoresN).2, false)

/-- The underflow detection and recovery logic of `SafeProbScores`
applied to the linear-domain and log-domain score vectors; the final
`Bool` records whether `ErrUnderflow` is reported. -/
noncomputable def safeProbCore (scores logScores : List ℝ) : List ℝ × Nat × Bool × Bool :=
  if scores.sum = 0 then
    (logScoresToProbs logScores, (findMax logScores).1, (findMax logScores).2, true)
  else probCompare (scores.map (fun s => s / scores.sum)) logScores

/-- `SafeProbScores` (Go method `Classifier.SafeProbScores`). -/
noncomputable def SafeProbScores (c : Classifier ℝ) (doc : List String) :
    Except GoError (List ℝ × Nat × Bool × Bool) :=
  if notConvertedGuard c then
    .error (.panicked
      ("Using a TF-IDF classifier. Please call ConvertTermsFreqToTfIdf before calling SafeProbScores."))
  else .ok (safeProbCore (probRawScores c doc) (logRawScores c doc))

/-- The arg-max index of a scoring result, when the call did not panic. -/
def scoreIdx (r : Except GoError (List ℝ × Nat × Bool)) : Option Nat :=
  r.toOption.map (fun t => t.2.1)

/-- The strictness flag of a scoring result, when the call did not panic. -/
def scoreStrict (r : Except GoError (List ℝ × Nat × Bool)) : Option Bool :=
  r.toOption.map (fun t => t.2.2)

/-- The arg-max index of a `SafeProbScores` result. -/
def safeIdx (r : Except GoError (List ℝ × Nat × Bool × Bool)) : Option Nat :=
  r.toOption.map (fun t => t.2.1)

/-- The strictness flag of a `SafeProbScores` result. -/
def safeStrict (r : Except GoError (List ℝ × Nat × Bool × Bool)) : Option Bool :=
  r.toOption.map (fun t => t.2.2.1)

/-- Whether a `SafeProbScores` result reported `ErrUnderflow`. -/
def safeUnderflow (r : Except GoError (List ℝ × Nat × Bool × Bool)) : Option Bool :=
  r.toOption.map (fun t => t.2.2.2)

/-- `writeGobLocked` (Go): the record written to the gob stream.  The gob
codec itself is Go standard library code whose contract is that decoding
an encoded record yields the record back, so the stream is modelled by
the record itself. -/
def writeGob {α : Type} (c : Classifier α) : serializableClassifier α :=
  ⟨c.Classes, c.learned, c.seen, c.datas, c.tfIdf, c.DidConvertTfIdf⟩

/-- Wrap-around conversion of a Go `int` to `int32`, as performed by
`int32(w.Seen)`. -/
def toInt32 (n : Int) : Int := (n + 2 ^ 31) % 2 ^ 32 - 2 ^ 31

/-- `NewClassifierFromReader` (Go): rebuilds a classifier from a decoded
gob record. -/
def NewClassifierFromReader {α : Type} (w : serializableClassifier α) : Classifier α :=
  ⟨w.Classes, w.Learned, toInt32 w.Seen, w.Datas, w.TfIdf, w.DidConvertTfIdf⟩

/-- The states reachable by construction, `Learn`, `Observe` and
`AddClass`; the predicate `P` constrains the counts passed to `Observe`.
`Learn` and `Observe` carry the side condition that the class is present,
matching the executions on which the Go code does not fault. -/
inductive Reaches {α : Type} [LinearOrderedField α] (P : Int → Prop) :
    Classifier α → Prop where
  | new (tfIdf : Bool) (classes : List String) (c : Classifier α)
      (h : newClassifier tfIdf classes = .ok c) : Reaches P c
  | learn (c c' : Classifier α) (doc : List String) (which : String)
      (hr : Reaches P c) (hm : which ∈ c.datas.map Prod.fst)
      (h : Learn c doc which = .ok c') : Reaches P c'
  | observe (c : Classifier α) (word : String) (count : Int) (which : String)
      (hr : Reaches P c) (hm : which ∈ c.datas.map Prod.fst) (hP : P count) :
      Reaches P (Observe c word count which)
  | addClass (c c' : Classifier α) (cls : String)
      (hr : Reaches P c) (h : AddClass c cls = .ok c') : Reaches P c'

/-- The states reachable over `ℝ` when `ConvertTermsFreqToTfIdf` is also
available (counts passed to `Observe` are nonnegative). -/
inductive ReachesConv : Classifier ℝ → Prop where
  | new (tfIdf : Bool) (classes : List String) (c : Classifier ℝ)
      (h : newClassifier tfIdf classes = .ok c) : ReachesConv c
  | learn (c c' : Classifier ℝ) (doc : List String) (which : String)
      (hr : ReachesConv c) (hm : which ∈ c.datas.map Prod.fst)
      (h : Learn c doc which = .ok c') : ReachesConv c'
  | observe (c : Classifier ℝ) (word : String) (count : Int) (which : String)
      (hr : ReachesConv c) (hm : which ∈ c.datas.map Prod.fst) (hP : 0 ≤ count) :
      ReachesConv (Observe c word count which)
  | addClass (c c' : Classifier ℝ) (cls : String)
      (hr : ReachesConv c) (h : AddClass c cls = .ok c') : ReachesConv c'
  | convert (c c' : Classifier ℝ)
      (hr : ReachesConv c) (h : ConvertTermsFreqToTfIdf c = .ok c') : ReachesConv c'

/-- The data invariant of non-converted states: the class total equals
the sum of the word frequencies. -/
def TotalEqSum {α : Type} [LinearOrderedField α] (d : classData α) : Prop :=
  (d.Total : α) = (d.Freqs.map Prod.snd).sum

/-- All stored word frequencies are nonnegative. -/
def FreqsNonneg {α : Type} [LinearOrderedField α] (d : classData α) : Prop :=
  ∀ q ∈ d.Freqs, 0 ≤ q.2

/-- A freshly constructed two-class rational classifier. -/
def wq0 : Classifier ℚ :=
  ⟨["A", "B"], 0, 0, [("A", newClassData), ("B", newClassData)], false, false⟩

/-- `wq0` after `Learn ["x"] "A"`. -/
def wq1 : Classifier ℚ :=
  ⟨["A", "B"], 1, 0, [("A", ⟨[("x", 1)], [], 1⟩), ("B", newClassData)], false, false⟩

/-- `wq1` after `Observe "y" 3 "B"`. -/
def wq2 : Classifier ℚ :=
  ⟨["A", "B"], 1, 0, [("A", ⟨[("x", 1)], [], 1⟩), ("B", ⟨[("y", ((3 : Int) : ℚ))], [], 3⟩)], false, false⟩

/-- A class record in which the word `w` carries weight `-1`, so its
smoothed probability is exactly zero — the raw linear score of any
document containing `w` underflows to exactly 0. -/
def dz : classData ℚ := ⟨[("w", -1), ("v", ((2 : Int) : ℚ))], [], 1⟩

/-- A two-class classifier whose every raw score on `["w"]` is zero. -/
def wq3 : Classifier ℚ := ⟨["A", "B"], 0, 0, [("A", dz), ("B", dz)], false, false⟩

/-- A trained two-class real classifier with distinct class totals. -/
noncomputable def wr0 : Classifier ℝ :=
  ⟨["A", "B"], 0, 0, [("A", ⟨[("x", 2)], [], 2⟩), ("B", ⟨[("x", 1)], [], 1⟩)], false, false⟩

/-- A freshly constructed two-class TF-IDF classifier. -/
noncomputable def wt0 : Classifier ℝ :=
  ⟨["A", "B"], 0, 0, [("A", newClassData), ("B", newClassData)], true, false⟩

/-- A TF-IDF classifier holding recorded term-frequency samples for the
word `w` in class `B`, not yet converted. -/
noncomputable def wt1 : Classifier ℝ :=
  ⟨["A", "B"], 3, 0,
    [("A", newClassData), ("B", ⟨[("w", 9 / 10)], [("w", [1 / 2, 1 / 3])], 6⟩)],
    true, false⟩

/-- `wt0` after learning six empty documents to class `A`. -/
noncomputable def cex6 : Classifier ℝ := { wt0 with learned := 6 }

/-- `cex6` after `Learn ["w"] "B"`. -/
noncomputable def cex7 : Classifier ℝ :=
  ⟨["A", "B"], 7, 0,
    [("A", newClassData), ("B", ⟨[("w", 1)], [("w", [1])], 1⟩)], true, false⟩

/-- `cex7` after `ConvertTermsFreqToTfIdf`: the TF-IDF weight stored for
`w` in class `B` is `log1p(1) * log1p(7/1) = log 2 * log 8 > 1`. -/
noncomputable def cex8 : Classifier ℝ :=
  ⟨["A", "B"], 7, 0,
    [("A", newClassData),
     ("B", ⟨[("w", Real.log 2 * Real.log 8)], [("w", [Real.log 2 * Real.log 8])], 1⟩)],
    true, true⟩

theorem maxInv_step {α : Type} [LinearOrder α] [Inhabited α]
    (scores : List α) (k : Nat) (p : Nat × Bool) (h : MaxInv scores k p) :
    MaxInv scores (k + 1) (stepFn scores k p) := by
  obtain ⟨hlt, hmax, hfirst, hstrict⟩ := h
  unfold stepFn
  by_cases h1 : scores.getD p.1 default < scores.getD k default
  · rw [if_pos h1]
    refine ⟨Nat.lt_succ_self k, ?_, ?_, ?_⟩
    · intro j hj
      rcases Nat.lt_succ_iff_lt_or_eq.mp hj with hj' | rfl
      · exact le_of_lt (lt_of_le_of_lt (hmax j hj') h1)
      · exact le_refl _
    · intro j hj
      exact lt_of_le_of_lt (hmax j hj) h1
    · constructor
      · intro _ j hj hne
        rcases Nat.lt_succ_iff_lt_or_eq.mp hj with hj' | rfl
        · exact lt_of_le_of_lt (hmax j hj') h1
        · exact absurd rfl hne
      · intro _
        rfl
  · by_cases h2 : scores.getD p.1 default = scores.getD k default
    · rw [if_neg h1, if_pos h2]
      refine ⟨Nat.lt_succ_of_lt hlt, ?_, hfirst, ?_⟩
      · intro j hj
        rcases Nat.lt_succ_iff_lt_or_eq.mp hj with hj' | rfl
        · exact hmax j hj'
        · exact le_of_eq h2.symm
      · refine iff_of_false (by simp) ?_
        intro hall
        have hk := hall k (Nat.lt_succ_self k) (Ne.symm (Nat.ne_of_lt hlt))
        rw [h2] at hk
        exact lt_irrefl _ hk
    · rw [if_neg h1, if_neg h2]
      have hgt : scores.getD k default < scores.getD p.1 default :=
        lt_of_le_of_ne (not_lt.mp h1) (fun he => h2 he.symm)
      refine ⟨Nat.lt_succ_of_lt hlt, ?_, hfirst, ?_⟩
      · intro j hj
        rcases Nat.lt_succ_iff_lt_or_eq.mp hj with hj' | rfl
        · exact hmax j hj'
        · exact le_of_lt hgt
      · rw [hstrict]
        constructor
        · intro hold j hj hne
          rcases Nat.lt_succ_iff_lt_or_eq.mp hj with hj' | rfl
          · exact hold j hj' hne
          · exact hgt
        · intro hnew j hj hne
          exact hnew j (Nat.lt_succ_of_lt hj) hne

theorem findMaxAux_inv {α : Type} [LinearOrder α] [Inhabited α] (scores : List α) :
    ∀ (cnt k : Nat) (p : Nat × Bool), MaxInv scores k p →
      MaxInv scores (k + cnt) (findMaxAux scores p (List.range' k cnt)) := by
  intro cnt
  induction cnt with
  | zero =>
    intro k p h
    simpa [findMaxAux] using h
  | succ n ih =>
    intro k p h
    rw [List.range'_succ]
    have hrec := ih (k + 1) (stepFn scores k p) (maxInv_step scores k p h)
    rw [show k + (n + 1) = (k + 1) + n from by omega]
    exact hrec

/-- Claim C8: for every non-empty score vector, `findMax` returns the
lowest index at which the maximum value occurs, and `strict = true`
exactly when the maximum occurs at exactly one index. -/
theorem findMax_spec {α : Type} [LinearOrder α] [Inhabited α]
    (scores : List α) (h : scores ≠ []) :
    (findMax scores).1 < scores.length ∧
    (∀ j, j < scores.length →
      scores.getD j default ≤ scores.getD (findMax scores).1 default) ∧
    (∀ j, j < (findMax scores).1 →
      scores.getD j default < scores.getD (findMax scores).1 default) ∧
    ((findMax scores).2 = true ↔ ∀ j, j < scores.length → j ≠ (findMax scores).1 →
      scores.getD j default < scores.getD (findMax scores).1 default) := by
  have hlen : 1 ≤ scores.length := by
    cases scores with
    | nil => exact absurd rfl h
    | cons a t => exact Nat.succ_le_succ (Nat.zero_le _)
  have base : MaxInv scores 1 (0, true) := by
    refine ⟨Nat.one_pos, ?_, ?_, ?_⟩
    · intro j hj
      have hj0 : j = 0 := by omega
      subst hj0
      exact le_refl _
    · intro j hj
      exact absurd hj (Nat.not_lt_zero j)
    · constructor
      · intro _ j hj hne
        have hj0 : j = 0 := by omega
        exact absurd hj0 hne
      · intro _
        rfl
  have hinv := findMaxAux_inv scores (scores.length - 1) 1 (0, true) base
  rw [show 1 + (scores.length - 1) = scores.length from by omega] at hinv
  have hmain : MaxInv scores scores.length (findMax scores) := hinv
  exact ⟨hmain.1, hmain.2.1, hmain.2.2.1, hmain.2.2.2⟩

/-- Witness for C8 at the concrete rational vector `[1, 2, 2]`. -/
theorem findMax_spec_witness :
    ([(1 : ℚ), 2, 2] ≠ []) ∧
    ((findMax [(1 : ℚ), 2, 2]).1 < ([(1 : ℚ), 2, 2]).length ∧
    (∀ j, j < ([(1 : ℚ), 2, 2]).length →
      ([(1 : ℚ), 2, 2]).getD j default ≤
        ([(1 : ℚ), 2, 2]).getD (findMax [(1 : ℚ), 2, 2]).1 default) ∧
    (∀ j, j < (findMax [(1 : ℚ), 2, 2]).1 →
      ([(1 : ℚ), 2, 2]).getD j default <
        ([(1 : ℚ), 2, 2]).getD (findMax [(1 : ℚ), 2, 2]).1 default) ∧
    ((findMax [(1 : ℚ), 2, 2]).2 = true ↔
      ∀ j, j < ([(1 : ℚ), 2, 2]).length → j ≠ (findMax [(1 : ℚ), 2, 2]).1 →
        ([(1 : ℚ), 2, 2]).getD j default <
          ([(1 : ℚ), 2, 2]).getD (findMax [(1 : ℚ), 2, 2]).1 default)) :=
  ⟨by decide, findMax_spec [(1 : ℚ), 2, 2] (by decide)⟩

theorem lookup_mem {β : Type} (l : List (String × β)) (k : String) (v : β)
    (h : List.lookup k l = some v) : (k, v) ∈ l := by
  induction l with
  | nil => simp [List.lookup] at h
  | cons p t ih =>
    obtain ⟨k', v'⟩ := p
    rw [List.lookup] at h
    cases hbe : (k == k') with
    | true =>
      rw [hbe] at h
      have h2 : some v' = some v := h
      obtain rfl : v' = v := by simpa using h2
      have hk : k = k' := by simpa using hbe
      subst hk
      exact List.mem_cons_self _ _
    | false =>
      rw [hbe] at h
      have h2 : List.lookup k t = some v := h
      exact List.mem_cons_of_mem _ (ih h2)

theorem bump_sum {α : Type} [LinearOrderedField α]
    (l : List (String × α)) (k : String) (v : α) :
    ((bump l k v).map Prod.snd).sum = (l.map Prod.snd).sum + v := by
  induction l with
  | nil => simp [bump]
  | cons p t ih =>
    obtain ⟨k', v'⟩ := p
    by_cases hk : k = k'
    · rw [bump, if_pos hk]
      simp only [List.map_cons, List.sum_cons]
      ring
    · rw [bump, if_neg hk]
      simp only [List.map_cons, List.sum_cons, ih]
      ring

theorem bump_nonneg {α : Type} [LinearOrderedField α]
    (l : List (String × α)) (k : String) (v : α)
    (hl : ∀ q ∈ l, 0 ≤ q.2) (hv : 0 ≤ v) :
    ∀ q ∈ bump l k v, 0 ≤ q.2 := by
  induction l with
  | nil =>
    intro q hq
    simp [bump] at hq
    simp [hq, hv]
  | cons p t ih =>
    obtain ⟨k', v'⟩ := p
    intro q hq
    by_cases hk : k = k'
    · rw [bump, if_pos hk] at hq
      rcases List.mem_cons.mp hq with rfl | hq'
      · have := hl (k', v') (List.mem_cons_self _ _)
        exact add_nonneg this hv
      · exact hl q (List.mem_cons_of_mem _ hq')
    · rw [bump, if_neg hk] at hq
      rcases List.mem_cons.mp hq with rfl | hq'
      · exact hl (k', v') (List.mem_cons_self _ _)
      · exact ih (fun r hr => hl r (List.mem_cons_of_mem _ hr)) q hq'

theorem learnCount_totalEqSum {α : Type} [LinearOrderedField α]
    (doc : List String) (d : classData α) (h : TotalEqSum d) :
    TotalEqSum (learnCount doc d) := by
  induction doc generalizing d with
  | nil => simpa [learnCount] using h
  | cons w t ih =>
    have hstep : TotalEqSum { d with Freqs := bump d.Freqs w 1, Total := d.Total + 1 } := by
      unfold TotalEqSum at h ⊢
      simp only [bump_sum]
      push_cast
      rw [h]
    have hrec := ih _ hstep
    simpa [learnCount] using hrec

theorem learnCount_freqsNonneg {α : Type} [LinearOrderedField α]
    (doc : List String) (d : classData α) (h : FreqsNonneg d) :
    FreqsNonneg (learnCount doc d) := by
  induction doc generalizing d with
  | nil => simpa [learnCount] using h
  | cons w t ih =>
    have hstep : FreqsNonneg { d with Freqs := bump d.Freqs w 1, Total := d.Total + 1 } := by
      intro q hq
      exact bump_nonneg d.Freqs w 1 h zero_le_one q hq
    have hrec := ih _ hstep
    simpa [learnCount] using hrec

theorem learnTf_freqs_total {α : Type} [LinearOrderedField α]
    (doc : List String) (d : classData α) :
    (learnTf doc d).Freqs = d.Freqs ∧ (learnTf doc d).Total = d.Total := by
  unfold learnTf
  generalize distinctWords doc = ws
  induction ws generalizing d with
  | nil => exact ⟨rfl, rfl⟩
  | cons w t ih =>
    simpa using ih { d with FreqTfs := bumpTf d.FreqTfs w ((doc.count w : α) / (doc.length : α)) }

theorem updateData_mem {α : Type} (c : Classifier α) (which : String)
    (f : classData α → classData α) (p : String × classData α)
    (hp : p ∈ (updateData c which f).datas) :
    p ∈ c.datas ∨ ∃ q ∈ c.datas, p = (q.1, f q.2) := by
  unfold updateData at hp
  simp only [List.mem_map] at hp
  obtain ⟨q, hq, hpq⟩ := hp
  by_cases h : q.1 = which
  · right
    exact ⟨q, hq, by rw [← hpq, if_pos h]⟩
  · left
    rw [← hpq, if_neg h]
    exact hq

theorem newClassifier_ok {α : Type} (tfIdf : Bool) (classes : List String)
    (c : Classifier α) (h : newClassifier tfIdf classes = .ok c) :
    c = ⟨classes, 0, 0, classes.map (fun cls => (cls, newClassData)), tfIdf, false⟩ := by
  unfold newClassifier at h
  split_ifs at h <;> cases h <;> rfl

theorem learn_ok {α : Type} [LinearOrderedField α] (c c' : Classifier α)
    (doc : List String) (which : String) (h : Learn c doc which = .ok c') :
    c' = incLearned (updateData (learnTfPhase c doc which) which (learnCount doc)) := by
  unfold Learn at h
  split_ifs at h <;> cases h <;> rfl

theorem addClass_ok {α : Type} (c c' : Classifier α) (cls : String)
    (h : AddClass c cls = .ok c') :
    c' = { c with Classes := c.Classes ++ [cls], datas := c.datas ++ [(cls, newClassData)] } := by
  unfold AddClass at h
  split_ifs at h <;> cases h <;> rfl

theorem reaches_totalEqSum {α : Type} [LinearOrderedField α] (P : Int → Prop)
    (c : Classifier α) (h : Reaches P c) : ∀ p ∈ c.datas, TotalEqSum p.2 := by
  induction h with
  | new tfIdf classes c hnew =>
    rw [newClassifier_ok tfIdf classes c hnew]
    intro p hp
    simp only [List.mem_map] at hp
    obtain ⟨cls, _, rfl⟩ := hp
    simp [TotalEqSum, newClassData]
  | learn c c' doc which hr hm hlearn ih =>
    rw [learn_ok c c' doc which hlearn]
    intro p hp
    simp only [incLearned] at hp
    rcases updateData_mem _ _ _ _ hp with hmem | ⟨q, hq, rfl⟩
    · -- entry untouched by the count phase
      unfold learnTfPhase at hmem
      split_ifs at hmem with htf
      · rcases updateData_mem _ _ _ _ hmem with hmem' | ⟨r, hr', rfl⟩
        · exact ih _ hmem'
        · have := ih _ hr'
          unfold TotalEqSum at this ⊢
          rw [(learnTf_freqs_total doc r.2).1, (learnTf_freqs_total doc r.2).2]
          exact this
      · exact ih _ hmem
    · -- the updated entry
      refine learnCount_totalEqSum doc q.2 ?_
      unfold learnTfPhase at hq
      split_ifs at hq with htf
      · rcases updateData_mem _ _ _ _ hq with hmem' | ⟨r, hr', rfl⟩
        · exact ih _ hmem'
        · have := ih _ hr'
          unfold TotalEqSum at this ⊢
          rw [(learnTf_freqs_total doc r.2).1, (learnTf_freqs_total doc r.2).2]
          exact this
      · exact ih _ hq
  | observe c word count which hr hm hP ih =>
    intro p hp
    unfold Observe at hp
    rcases updateData_mem _ _ _ _ hp with hmem | ⟨q, hq, rfl⟩
    · exact ih _ hmem
    · have := ih _ hq
      unfold TotalEqSum at this ⊢
      simp only [bump_sum]
      push_cast
      rw [this]
  | addClass c c' cls hr hadd ih =>
    rw [addClass_ok c c' cls hadd]
    intro p hp
    rcases List.mem_append.mp hp with hmem | hmem
    · exact ih _ hmem
    · simp only [List.mem_singleton] at hmem
      subst hmem
      simp [TotalEqSum, newClassData]

theorem reaches_freqsNonneg {α : Type} [LinearOrderedField α] (P : Int → Prop)
    (hPn : ∀ n, P n → (0 : Int) ≤ n)
    (c : Classifier α) (h : Reaches P c) : ∀ p ∈ c.datas, FreqsNonneg p.2 := by
  induction h with
  | new tfIdf classes c hnew =>
    rw [newClassifier_ok tfIdf classes c hnew]
    intro p hp
    simp only [List.mem_map] at hp
    obtain ⟨cls, _, rfl⟩ := hp
    simp [FreqsNonneg, newClassData]
  | learn c c' doc which hr hm hlearn ih =>
    rw [learn_ok c c' doc which hlearn]
    intro p hp
    simp only [incLearned] at hp
    rcases updateData_mem _ _ _ _ hp with hmem | ⟨q, hq, rfl⟩
    · unfold learnTfPhase at hmem
      split_ifs at hmem with htf
      · rcases updateData_mem _ _ _ _ hmem with hmem' | ⟨r, hr', rfl⟩
        · exact ih _ hmem'
        · have := ih _ hr'
          unfold FreqsNonneg at this ⊢
          rw [(learnTf_freqs_total doc r.2).1]
          exact this
      · exact ih _ hmem
    · refine learnCount_freqsNonneg doc q.2 ?_
      unfold learnTfPhase at hq
      split_ifs at hq with htf
      · rcases updateData_mem _ _ _ _ hq with hmem' | ⟨r, hr', rfl⟩
        · exact ih _ hmem'
        · have := ih _ hr'
          unfold FreqsNonneg at this ⊢
          rw [(learnTf_freqs_total doc r.2).1]
          exact this
      · exact ih _ hq
  | observe c word count which hr hm hP ih =>
    intro p hp
    unfold Observe at hp
    rcases updateData_mem _ _ _ _ hp with hmem | ⟨q, hq, rfl⟩
    · exact ih _ hmem
    · intro r hr'
      refine bump_nonneg q.2.Freqs word (count : α) (ih _ hq) ?_ r hr'
      exact_mod_cast hPn count hP
  | addClass c c' cls hr hadd ih =>
    rw [addClass_ok c c' cls hadd]
    intro p hp
    rcases List.mem_append.mp hp with hmem | hmem
    · exact ih _ hmem
    · simp only [List.mem_singleton] at hmem
      subst hmem
      simp [FreqsNonneg, newClassData]

/-- Claim C5: on every non-TF-IDF classifier state reachable by any
sequence of construction, `Learn`, `Observe` and `AddClass`, every
class's total equals the sum of the values of its `Freqs` mapping. -/
theorem total_is_freqs_sum {α : Type} [LinearOrderedField α] (c : Classifier α)
    (h : Reaches (fun _ => True) c) (htf : c.tfIdf = false) :
    ∀ p ∈ c.datas, ((p.2.Total : α)) = (p.2.Freqs.map Prod.snd).sum := by
  intro p hp
  exact reaches_totalEqSum _ c h p hp

/-- Witness for C5: a concrete state reached by construction, one
`Learn` and one `Observe`. -/
theorem total_is_freqs_sum_witness :
    (Reaches (fun _ => True) wq2 ∧ wq2.tfIdf = false) ∧
    (∀ p ∈ wq2.datas, ((p.2.Total : ℚ)) = (p.2.Freqs.map Prod.snd).sum) := by
  have h0 : (newClassifier false ["A", "B"] : Except GoError (Classifier ℚ)) = .ok wq0 := by
    decide
  have r0 : Reaches (fun _ => True) wq0 := Reaches.new false ["A", "B"] wq0 h0
  have h1 : Learn wq0 ["x"] "A" = .ok wq1 := by decide
  have r1 : Reaches (fun _ => True) wq1 :=
    Reaches.learn wq0 wq1 ["x"] "A" r0 (by decide) h1
  have h2 : Observe wq1 "y" 3 "B" = wq2 := by decide
  have r2 : Reaches (fun _ => True) wq2 :=
    h2 ▸ Reaches.observe wq1 "y" 3 "B" r1 (by decide) trivial
  exact ⟨⟨r2, rfl⟩, total_is_freqs_sum wq2 r2 rfl⟩

theorem reaches_getData_total_nonneg {α : Type} [LinearOrderedField α]
    (P : Int → Prop) (hPn : ∀ n, P n → (0 : Int) ≤ n)
    (c : Classifier α) (h : Reaches P c) (cls : String) :
    0 ≤ (getData c cls).Total := by
  cases hl : List.lookup cls c.datas with
  | none =>
    have hdef : getData c cls = newClassData := by unfold getData; rw [hl]; rfl
    rw [hdef]
    exact le_refl 0
  | some d =>
    have hdef : getData c cls = d := by unfold getData; rw [hl]; rfl
    rw [hdef]
    have hmem := lookup_mem _ _ _ hl
    have h1 := reaches_totalEqSum P c h (cls, d) hmem
    have h2 := reaches_freqsNonneg P hPn c h (cls, d) hmem
    unfold TotalEqSum at h1
    have hsum : (0 : α) ≤ (d.Freqs.map Prod.snd).sum := by
      apply List.sum_nonneg
      intro x hx
      obtain ⟨q, hq, rfl⟩ := List.mem_map.mp hx
      exact h2 q hq
    have hcast : (0 : α) ≤ (d.Total : α) := by rw [h1]; exact hsum
    exact_mod_cast hcast

/-- Claim C4: for every reachable classifier (counts nonnegative) with a
nonempty class list, `getPriors` returns for each class in canonical
order `(classTotal + 1) / (sumOfAllClassTotals + n)`; every prior is
strictly positive, and with zero training data in every class the result
is the uniform vector `1/n`. -/
theorem getPriors_spec {α : Type} [LinearOrderedField α] (c : Classifier α)
    (h : Reaches (fun n => 0 ≤ n) c) (hn : c.Classes ≠ []) :
    getPriors c = c.Classes.map (fun cls =>
        (((getData c cls).Total : α) + 1) /
          ((totalsSum c : α) + (c.Classes.length : α))) ∧
    (∀ p ∈ getPriors c, 0 < p) ∧
    ((∀ cls ∈ c.Classes, (getData c cls).Total = 0) →
      getPriors c = List.replicate c.Classes.length (1 / (c.Classes.length : α))) := by
  have htotnn : ∀ cls : String, (0 : Int) ≤ (getData c cls).Total := fun cls =>
    reaches_getData_total_nonneg _ (fun n hn' => hn') c h cls
  have hts : (0 : Int) ≤ totalsSum c := by
    unfold totalsSum
    apply List.sum_nonneg
    intro x hx
    obtain ⟨cls, _, rfl⟩ := List.mem_map.mp hx
    exact htotnn cls
  have hlen : 1 ≤ c.Classes.length := by
    cases hc : c.Classes with
    | nil => exact absurd hc hn
    | cons a t => simp
  have hden : (0 : α) < (totalsSum c : α) + (c.Classes.length : α) := by
    have h1 : (0 : α) ≤ (totalsSum c : α) := by exact_mod_cast hts
    have h2 : (1 : α) ≤ (c.Classes.length : α) := by exact_mod_cast hlen
    linarith
  refine ⟨rfl, ?_, ?_⟩
  · intro p hp
    obtain ⟨cls, _, rfl⟩ := List.mem_map.mp hp
    unfold priorOf
    apply div_pos ?_ hden
    have h1 : (0 : α) ≤ ((getData c cls).Total : α) := by exact_mod_cast htotnn cls
    linarith
  · intro hz
    have htz : totalsSum c = 0 := by
      unfold totalsSum
      apply List.sum_eq_zero
      intro x hx
      obtain ⟨cls, hcls, rfl⟩ := List.mem_map.mp hx
      exact hz cls hcls
    unfold getPriors
    rw [List.eq_replicate_iff]
    refine ⟨by simp, ?_⟩
    intro b hb
    obtain ⟨cls, hcls, rfl⟩ := List.mem_map.mp hb
    unfold priorOf
    rw [hz cls hcls, htz]
    norm_num

/-- Witness for C4 at a concrete trained rational classifier. -/
theorem getPriors_spec_witness :
    (Reaches (fun n => (0 : Int) ≤ n) wq2 ∧ wq2.Classes ≠ []) ∧
    (getPriors wq2 = wq2.Classes.map (fun cls =>
        (((getData wq2 cls).Total : ℚ) + 1) /
          ((totalsSum wq2 : ℚ) + (wq2.Classes.length : ℚ))) ∧
    (∀ p ∈ getPriors wq2, 0 < p) ∧
    ((∀ cls ∈ wq2.Classes, (getData wq2 cls).Total = 0) →
      getPriors wq2 = List.replicate wq2.Classes.length (1 / (wq2.Classes.length : ℚ)))) := by
  have h0 : (newClassifier false ["A", "B"] : Except GoError (Classifier ℚ)) = .ok wq0 := by
    decide
  have r0 : Reaches (fun n => (0 : Int) ≤ n) wq0 := Reaches.new false ["A", "B"] wq0 h0
  have h1 : Learn wq0 ["x"] "A" = .ok wq1 := by decide
  have r1 : Reaches (fun n => (0 : Int) ≤ n) wq1 :=
    Reaches.learn wq0 wq1 ["x"] "A" r0 (by decide) h1
  have h2 : Observe wq1 "y" 3 "B" = wq2 := by decide
  have r2 : Reaches (fun n => (0 : Int) ≤ n) wq2 :=
    h2 ▸ Reaches.observe wq1 "y" 3 "B" r1 (by decide) (by decide)
  exact ⟨⟨r2, by decide⟩, getPriors_spec wq2 r2 (by decide)⟩

/-- Claim C3 (amended): `getWordProb` returns the fixed default exactly
when the class has zero total weight or zero distinct words, and
otherwise `(count(word) + 1) / (total + vocabularySize)` with count 0
for unseen words; on every non-TF-IDF state reachable by construction,
`Learn`, `Observe` with nonnegative counts and `AddClass`, the value
lies in `(0, 1]`.  (The original claim over all reachable states is
refuted at a converted TF-IDF state by `getWordProb_unit_interval_cex`.) -/
theorem getWordProb_spec_amended {α : Type} [LinearOrderedField α]
    (c : Classifier α) (h : Reaches (fun n => 0 ≤ n) c) (htf : c.tfIdf = false)
    (cls word : String) :
    ((getData c cls).Total = 0 ∨ (getData c cls).Freqs.length = 0 →
       (getData c cls).getWordProb word = defaultProb) ∧
    (¬((getData c cls).Total = 0 ∨ (getData c cls).Freqs.length = 0) →
       (getData c cls).getWordProb word =
         (lookupD (getData c cls).Freqs word 0 + 1) /
           (((getData c cls).Total : α) + ((getData c cls).Freqs.length : α))) ∧
    0 < (getData c cls).getWordProb word ∧ (getData c cls).getWordProb word ≤ 1 := by
  have hinv : TotalEqSum (getData c cls) ∧ FreqsNonneg (getData c cls) := by
    cases hl : List.lookup cls c.datas with
    | none =>
      have hdef : getData c cls = newClassData := by unfold getData; rw [hl]; rfl
      rw [hdef]
      constructor
      · simp [TotalEqSum, newClassData]
      · intro q hq
        simp [newClassData] at hq
    | some d =>
      have hdef : getData c cls = d := by unfold getData; rw [hl]; rfl
      rw [hdef]
      have hmem := lookup_mem _ _ _ hl
      exact ⟨reaches_totalEqSum _ c h (cls, d) hmem,
             reaches_freqsNonneg _ (fun n hn => hn) c h (cls, d) hmem⟩
  obtain ⟨hsum, hnn⟩ := hinv
  unfold TotalEqSum at hsum
  refine ⟨?_, ?_, ?_⟩
  · intro hcond
    unfold classData.getWordProb
    rw [if_pos hcond]
  · intro hcond
    unfold classData.getWordProb
    rw [if_neg hcond]
  · unfold classData.getWordProb
    by_cases hcond : (getData c cls).Total = 0 ∨ (getData c cls).Freqs.length = 0
    · rw [if_pos hcond]
      unfold defaultProb
      constructor
      · positivity
      · rw [div_le_one (by norm_num)]
        norm_num
    · rw [if_neg hcond]
      push_neg at hcond
      obtain ⟨hT, hF⟩ := hcond
      have hvnn : (0 : α) ≤ lookupD (getData c cls).Freqs word 0 := by
        unfold lookupD
        cases hw : List.lookup word (getData c cls).Freqs with
        | none => simp
        | some v =>
          simp only [Option.getD_some]
          exact hnn (word, v) (lookup_mem _ _ _ hw)
      have hTnn : (0 : α) ≤ ((getData c cls).Total : α) := by
        rw [hsum]
        apply List.sum_nonneg
        intro x hx
        obtain ⟨q, hq, rfl⟩ := List.mem_map.mp hx
        exact hnn q hq
      have hTpos : (0 : α) < ((getData c cls).Total : α) := by
        rcases lt_or_eq_of_le hTnn with h' | h'
        · exact h'
        · exfalso
          apply hT
          exact_mod_cast h'.symm
      have hF1 : (1 : α) ≤ ((getData c cls).Freqs.length : α) := by
        have h1 : 1 ≤ (getData c cls).Freqs.length := Nat.one_le_iff_ne_zero.mpr hF
        exact_mod_cast h1
      have hden : (0 : α) <
          ((getData c cls).Total : α) + ((getData c cls).Freqs.length : α) := by
        linarith
      constructor
      · exact div_pos (by linarith) hden
      · rw [div_le_one hden]
        have hvT : lookupD (getData c cls).Freqs word 0 ≤ ((getData c cls).Total : α) := by
          unfold lookupD
          cases hw : List.lookup word (getData c cls).Freqs with
          | none => simpa using hTnn
          | some v =>
            simp only [Option.getD_some]
            rw [hsum]
            refine List.single_le_sum ?_ v ?_
            · intro x hx
              obtain ⟨q, hq, rfl⟩ := List.mem_map.mp hx
              exact hnn q hq
            · exact List.mem_map.mpr ⟨(word, v), lookup_mem _ _ _ hw, rfl⟩
        linarith

/-- Witness for the amended C3 at a concrete trained rational classifier. -/
theorem getWordProb_spec_amended_witness :
    (Reaches (fun n => (0 : Int) ≤ n) wq2 ∧ wq2.tfIdf = false) ∧
    (((getData wq2 "A").Total = 0 ∨ (getData wq2 "A").Freqs.length = 0 →
       (getData wq2 "A").getWordProb "x" = defaultProb) ∧
    (¬((getData wq2 "A").Total = 0 ∨ (getData wq2 "A").Freqs.length = 0) →
       (getData wq2 "A").getWordProb "x" =
         (lookupD (getData wq2 "A").Freqs "x" 0 + 1) /
           (((getData wq2 "A").Total : ℚ) + ((getData wq2 "A").Freqs.length : ℚ))) ∧
    0 < (getData wq2 "A").getWordProb "x" ∧ (getData wq2 "A").getWordProb "x" ≤ 1) := by
  have h0 : (newClassifier false ["A", "B"] : Except GoError (Classifier ℚ)) = .ok wq0 := by
    decide
  have r0 : Reaches (fun n => (0 : Int) ≤ n) wq0 := Reaches.new false ["A", "B"] wq0 h0
  have h1 : Learn wq0 ["x"] "A" = .ok wq1 := by decide
  have r1 : Reaches (fun n => (0 : Int) ≤ n) wq1 :=
    Reaches.learn wq0 wq1 ["x"] "A" r0 (by decide) h1
  have h2 : Observe wq1 "y" 3 "B" = wq2 := by decide
  have r2 : Reaches (fun n => (0 : Int) ≤ n) wq2 :=
    h2 ▸ Reaches.observe wq1 "y" 3 "B" r1 (by decide) (by decide)
  exact ⟨⟨r2, rfl⟩, getWordProb_spec_amended wq2 r2 rfl "A" "x"⟩

/-- Claim C3 counterexample: a classifier state reached by legal API
calls (construct TF-IDF, learn six empty documents to class `A`, learn
`["w"]` to class `B`, convert) on which `getWordProb` exceeds 1: the
stored TF-IDF weight is `log 2 * log 8 ≈ 1.44`, so the smoothed
probability is `(log 2 * log 8 + 1) / 2 > 1`. -/
theorem getWordProb_unit_interval_cex :
    ReachesConv cex8 ∧ 1 < (getData cex8 "B").getWordProb "w" := by
  constructor
  · have h0 : (newClassifier true ["A", "B"] : Except GoError (Classifier ℝ)) = .ok wt0 := rfl
    have r0 : ReachesConv wt0 := ReachesConv.new true ["A", "B"] wt0 h0
    have hmA : "A" ∈ wt0.datas.map Prod.fst := by simp [wt0]
    have s1 : Learn wt0 [] "A" = .ok { wt0 with learned := 1 } := rfl
    have r1 := ReachesConv.learn wt0 { wt0 with learned := 1 } [] "A" r0 hmA s1
    have s2 : Learn { wt0 with learned := 1 } [] "A" = .ok { wt0 with learned := 2 } := rfl
    have r2 := ReachesConv.learn _ { wt0 with learned := 2 } [] "A" r1 hmA s2
    have s3 : Learn { wt0 with learned := 2 } [] "A" = .ok { wt0 with learned := 3 } := rfl
    have r3 := ReachesConv.learn _ { wt0 with learned := 3 } [] "A" r2 hmA s3
    have s4 : Learn { wt0 with learned := 3 } [] "A" = .ok { wt0 with learned := 4 } := rfl
    have r4 := ReachesConv.learn _ { wt0 with learned := 4 } [] "A" r3 hmA s4
    have s5 : Learn { wt0 with learned := 4 } [] "A" = .ok { wt0 with learned := 5 } := rfl
    have r5 := ReachesConv.learn _ { wt0 with learned := 5 } [] "A" r4 hmA s5
    have s6 : Learn { wt0 with learned := 5 } [] "A" = .ok cex6 := rfl
    have r6 := ReachesConv.learn _ cex6 [] "A" r5 hmA s6
    have hmB : "B" ∈ cex6.datas.map Prod.fst := by simp [cex6, wt0]
    have s7 : Learn cex6 ["w"] "B" = .ok cex7 := by
      simp only [Learn, learnTfPhase, updateData, learnCount, learnTf, distinctWords,
        incLearned, bump, bumpTf, cex6, wt0, cex7, newClassData]
      norm_num
      exact ⟨rfl, rfl, rfl⟩
    have r7 := ReachesConv.learn _ cex7 ["w"] "B" r6 hmB s7
    have s8 : ConvertTermsFreqToTfIdf cex7 = .ok cex8 := by
      have hw : tfIdfWeight 7 1 1 = Real.log 2 * Real.log 8 := by
        unfold tfIdfWeight log1p
        norm_num
      simp only [ConvertTermsFreqToTfIdf, convertAll, convertClassData,
        cex7, cex8, newClassData]
      norm_num
      rw [hw]
      exact ⟨rfl, rfl⟩
    exact ReachesConv.convert cex7 cex8 r7 s8
  · have hgd : getData cex8 "B" =
        ⟨[("w", Real.log 2 * Real.log 8)], [("w", [Real.log 2 * Real.log 8])], 1⟩ := rfl
    rw [hgd]
    unfold classData.getWordProb
    rw [if_neg (by norm_num)]
    have hval : lookupD [("w", Real.log 2 * Real.log 8)] "w" 0 =
        Real.log 2 * Real.log 8 := rfl
    have h8 : Real.log 8 = 3 * Real.log 2 := by
      rw [show (8 : ℝ) = 2 ^ 3 by norm_num, Real.log_pow]
      push_cast
      ring
    rw [hval, h8]
    have hl2 := Real.log_two_gt_d9
    norm_num
    rw [lt_div_iff (by norm_num)]
    nlinarith [hl2]

/-- Claim C10: when every class's raw linear-domain score underflows to
exactly zero (zero sum), `ProbScores` returns the uniform vector with
arg-max index 0 — the first class in canonical order — and
`strict = false`, regardless of priors or training data. -/
theorem probScores_zero_sum_spec {α : Type} [LinearOrderedField α] [Inhabited α]
    (c : Classifier α) (doc : List String)
    (hg : ¬ notConvertedGuard c) (hsum : (probRawScores c doc).sum = 0) :
    ProbScores c doc = .ok
      (List.replicate c.Classes.length (1 / (c.Classes.length : α)), 0, false) := by
  unfold ProbScores probCore
  rw [if_neg hg, if_pos hsum]
  have hlen : (probRawScores c doc).length = c.Classes.length := by
    unfold probRawScores
    simp
  rw [hlen]

/-- Witness for C10: on `wq3` the word `"w"` has smoothed probability
exactly zero in both classes, so both raw scores vanish. -/
theorem probScores_zero_sum_spec_witness :
    ((¬ notConvertedGuard wq3) ∧ (probRawScores wq3 ["w"]).sum = 0) ∧
    ProbScores wq3 ["w"] = .ok
      (List.replicate wq3.Classes.length (1 / (wq3.Classes.length : ℚ)), 0, false) := by
  have hg : ¬ notConvertedGuard wq3 := by decide
  have hsum : (probRawScores wq3 ["w"]).sum = 0 := by
    simp [probRawScores, classData.getWordProb, getData, lookupD, wq3, dz, List.lookup]
  exact ⟨⟨hg, hsum⟩, probScores_zero_sum_spec wq3 ["w"] hg hsum⟩

theorem sum_map_div (L : List ℝ) (S : ℝ) :
    (L.map (fun p => p / S)).sum = L.sum / S := by
  induction L with
  | nil => simp
  | cons a t ih => simp [ih, add_div]

theorem logScoresToProbs_sum_one (l : List ℝ) (h : l ≠ []) :
    (logScoresToProbs l).sum = 1 := by
  unfold logScoresToProbs
  set m := (l.drop 1).foldl max (l.getD 0 0) with hm
  have hpos : 0 < (l.map (fun x => Real.exp (x - m))).sum := by
    cases l with
    | nil => exact absurd rfl h
    | cons a t =>
      simp only [List.map_cons, List.sum_cons]
      have h1 : 0 < Real.exp (a - m) := Real.exp_pos _
      have h2 : 0 ≤ (t.map (fun x => Real.exp (x - m))).sum := by
        apply List.sum_nonneg
        intro x hx
        obtain ⟨y, _, rfl⟩ := List.mem_map.mp hx
        exact le_of_lt (Real.exp_pos _)
      linarith
  rw [sum_map_div, div_self (ne_of_gt hpos)]

/-- Claim C2: `SafeProbScores` reports underflow exactly when the
linear-domain sum is zero or the linear-domain arg-max/strictness
differs from the log-domain one; on either condition the returned score
vector is the stable exponential renormalization of the log scores
(summing to 1) and the returned index and strictness are the log-domain
ones. -/
theorem safeProbScores_underflow_spec (c : Classifier ℝ) (doc : List String)
    (hg : ¬ notConvertedGuard c) (hn : c.Classes ≠ []) :
    (safeUnderflow (SafeProbScores c doc) = some true ↔
      (probRawScores c doc).sum = 0 ∨
      findMax ((probRawScores c doc).map (fun s => s / (probRawScores c doc).sum)) ≠
        findMax (logRawScores c doc)) ∧
    (safeUnderflow (SafeProbScores c doc) = some true →
      SafeProbScores c doc = .ok (logScoresToProbs (logRawScores c doc),
        (findMax (logRawScores c doc)).1, (findMax (logRawScores c doc)).2, true) ∧
      (logScoresToProbs (logRawScores c doc)).sum = 1) := by
  have hlne : logRawScores c doc ≠ [] := by
    unfold logRawScores
    simpa using hn
  have hs1 := logScoresToProbs_sum_one (logRawScores c doc) hlne
  unfold SafeProbScores
  rw [if_neg hg]
  unfold safeProbCore
  by_cases hs : (probRawScores c doc).sum = 0
  · rw [if_pos hs]
    constructor
    · refine iff_of_true rfl (Or.inl hs)
    · intro _
      exact ⟨rfl, hs1⟩
  · rw [if_neg hs]
    unfold probCompare
    by_cases hd :
        (findMax ((probRawScores c doc).map (fun s => s / (probRawScores c doc).sum))).1 ≠
          (findMax (logRawScores c doc)).1 ∨
        (findMax ((probRawScores c doc).map (fun s => s / (probRawScores c doc).sum))).2 ≠
          (findMax (logRawScores c doc)).2
    · rw [if_pos hd]
      constructor
      · refine iff_of_true rfl (Or.inr ?_)
        intro he
        rcases hd with h1 | h2
        · exact h1 (by rw [he])
        · exact h2 (by rw [he])
      · intro _
        exact ⟨rfl, hs1⟩
    · rw [if_neg hd]
      push_neg at hd
      constructor
      · refine iff_of_false (by simp [safeUnderflow, Except.toOption]) ?_
        rintro (h1 | h2)
        · exact hs h1
        · exact h2 (Prod.ext hd.1 hd.2)
      · intro hfalse
        simp [safeUnderflow, Except.toOption] at hfalse

/-- Witness for C2 at a concrete trained real classifier and the empty
document. -/
theorem safeProbScores_underflow_spec_witness :
    ((¬ notConvertedGuard wr0) ∧ wr0.Classes ≠ []) ∧
    ((safeUnderflow (SafeProbScores wr0 []) = some true ↔
      (probRawScores wr0 []).sum = 0 ∨
      findMax ((probRawScores wr0 []).map (fun s => s / (probRawScores wr0 []).sum)) ≠
        findMax (logRawScores wr0 [])) ∧
    (safeUnderflow (SafeProbScores wr0 []) = some true →
      SafeProbScores wr0 [] = .ok (logScoresToProbs (logRawScores wr0 []),
        (findMax (logRawScores wr0 [])).1, (findMax (logRawScores wr0 [])).2, true) ∧
      (logScoresToProbs (logRawScores wr0 [])).sum = 1)) := by
  have hg : ¬ notConvertedGuard wr0 := by decide
  have hn : wr0.Classes ≠ [] := by
    simp [wr0]
  exact ⟨⟨hg, hn⟩, safeProbScores_underflow_spec wr0 [] hg hn⟩

theorem findMax_pair_of_lt {α : Type} [LinearOrder α] [Inhabited α]
    (a b : α) (h : b < a) : findMax [a, b] = (0, true) := by
  have h1 : ¬ ([a, b].getD 0 default < [a, b].getD 1 default) := by
    simpa using not_lt.mpr (le_of_lt h)
  have h2 : ¬ ([a, b].getD 0 default = [a, b].getD 1 default) := by
    simpa using (ne_of_gt h)
  show findMaxAux [a, b] (0, true) [1] = (0, true)
  unfold findMaxAux stepFn
  rw [if_neg h1, if_neg h2]
  rfl

/-- Claim C1: whenever `SafeProbScores` reports no underflow (which in
particular rules out the zero-sum fallback of `ProbScores`), the three
scoring operations agree on the arg-max class index, and also on the
strictness flag. -/
theorem scoring_argmax_agree (c : Classifier ℝ) (doc : List String)
    (hg : ¬ notConvertedGuard c)
    (hu : safeUnderflow (SafeProbScores c doc) = some false) :
    scoreIdx (ProbScores c doc) = scoreIdx (LogScores c doc) ∧
    safeIdx (SafeProbScores c doc) = scoreIdx (LogScores c doc) ∧
    scoreStrict (ProbScores c doc) = scoreStrict (LogScores c doc) ∧
    safeStrict (SafeProbScores c doc) = scoreStrict (LogScores c doc) := by
  unfold SafeProbScores at hu ⊢
  rw [if_neg hg] at hu ⊢
  unfold safeProbCore at hu ⊢
  by_cases hs : (probRawScores c doc).sum = 0
  · rw [if_pos hs] at hu
    simp [safeUnderflow, Except.toOption] at hu
  · rw [if_neg hs] at hu ⊢
    unfold probCompare at hu ⊢
    by_cases hd :
        (findMax ((probRawScores c doc).map (fun s => s / (probRawScores c doc).sum))).1 ≠
          (findMax (logRawScores c doc)).1 ∨
        (findMax ((probRawScores c doc).map (fun s => s / (probRawScores c doc).sum))).2 ≠
          (findMax (logRawScores c doc)).2
    · rw [if_pos hd] at hu
      simp [safeUnderflow, Except.toOption] at hu
    · rw [if_neg hd]
      push_neg at hd
      unfold ProbScores probCore LogScores
      rw [if_neg hg, if_neg hg, if_neg hs]
      refine ⟨?_, ?_, ?_, ?_⟩
      · simp only [scoreIdx, Except.toOption, Option.map_some]
        exact congrArg some hd.1
      · simp only [safeIdx, scoreIdx, Except.toOption, Option.map_some]
        exact congrArg some hd.1
      · simp only [scoreStrict, Except.toOption, Option.map_some]
        exact congrArg some hd.2
      · simp only [safeStrict, scoreStrict, Except.toOption, Option.map_some]
        exact congrArg some hd.2

/-- Witness for C1: a concrete classifier and document on which no
underflow is reported. -/
theorem scoring_argmax_agree_witness :
    ((¬ notConvertedGuard wr0) ∧
      safeUnderflow (SafeProbScores wr0 []) = some false) ∧
    (scoreIdx (ProbScores wr0 []) = scoreIdx (LogScores wr0 []) ∧
     safeIdx (SafeProbScores wr0 []) = scoreIdx (LogScores wr0 []) ∧
     scoreStrict (ProbScores wr0 []) = scoreStrict (LogScores wr0 []) ∧
     safeStrict (SafeProbScores wr0 []) = scoreStrict (LogScores wr0 [])) := by
  have hg : ¬ notConvertedGuard wr0 := by decide
  have hraw : probRawScores wr0 [] = [3 / 5, 2 / 5] := by
    simp [probRawScores, priorOf, getData, totalsSum, wr0, List.lookup]
    norm_num
  have hlraw : logRawScores wr0 [] = [Real.log (3 / 5), Real.log (2 / 5)] := by
    simp [logRawScores, priorOf, getData, totalsSum, wr0, List.lookup]
    norm_num
  have hsum : (probRawScores wr0 []).sum = 1 := by
    rw [hraw]
    norm_num
  have hnorm : (probRawScores wr0 []).map (fun s => s / (probRawScores wr0 []).sum) =
      [3 / 5, 2 / 5] := by
    rw [hraw]
    norm_num
  have hfm1 : findMax [(3 : ℝ) / 5, 2 / 5] = (0, true) :=
    findMax_pair_of_lt _ _ (by norm_num)
  have hfm2 : findMax [Real.log (3 / 5), Real.log (2 / 5)] = (0, true) :=
    findMax_pair_of_lt _ _ (Real.log_lt_log (by norm_num) (by norm_num))
  have hu : safeUnderflow (SafeProbScores wr0 []) = some false := by
    unfold SafeProbScores
    rw [if_neg hg]
    unfold safeProbCore
    rw [if_neg (by rw [hsum]; norm_num)]
    unfold probCompare
    rw [hnorm, hlraw, hfm1, hfm2]
    rw [if_neg (by simp)]
    rfl
  exact ⟨⟨hg, hu⟩, scoring_argmax_agree wr0 [] hg hu⟩

theorem lookup_cons_eq {β : Type} (k : String) (v : β) (t : List (String × β)) :
    List.lookup k ((k, v) :: t) = some v := by
  simp [List.lookup]

theorem lookup_cons_ne {β : Type} (k k' : String) (v : β) (t : List (String × β))
    (h : k ≠ k') : List.lookup k ((k', v) :: t) = List.lookup k t := by
  rw [List.lookup]
  rw [show (k == k') = false from beq_eq_false_iff_ne.mpr h]

theorem lookup_setKey_self {β : Type} (l : List (String × β)) (k : String) (v : β) :
    List.lookup k (setKey l k v) = some v := by
  induction l with
  | nil => simp [setKey, List.lookup]
  | cons p t ih =>
    obtain ⟨k', v'⟩ := p
    by_cases hk : k = k'
    · subst hk
      rw [setKey, if_pos rfl]
      exact lookup_cons_eq k v t
    · rw [setKey, if_neg hk, lookup_cons_ne k k' v' _ hk]
      exact ih

theorem lookup_setKey_other {β : Type} (l : List (String × β)) (k k0 : String) (v : β)
    (h : k ≠ k0) : List.lookup k (setKey l k0 v) = List.lookup k l := by
  induction l with
  | nil =>
    rw [setKey]
    rw [lookup_cons_ne k k0 v [] h]
  | cons p t ih =>
    obtain ⟨k', v'⟩ := p
    by_cases hk : k0 = k'
    · subst hk
      rw [setKey, if_pos rfl]
      rw [lookup_cons_ne k k0 v t h, lookup_cons_ne k k0 v' t h]
    · rw [setKey, if_neg hk]
      by_cases hkk : k = k'
      · subst hkk
        rw [lookup_cons_eq, lookup_cons_eq]
      · rw [lookup_cons_ne k k' v' _ hkk, lookup_cons_ne k k' v' _ hkk, ih]

theorem lookup_foldl_setKey_not_mem {β : Type}
    (F : String × List β → β) (t : List (String × List β)) (w : String)
    (fs : List (String × β)) (hnm : w ∉ t.map Prod.fst) :
    List.lookup w (t.foldl (fun fs p => setKey fs p.1 (F p)) fs) = List.lookup w fs := by
  induction t generalizing fs with
  | nil => rfl
  | cons p t ih =>
    simp only [List.map_cons, List.mem_cons] at hnm
    push_neg at hnm
    rw [List.foldl_cons, ih (setKey fs p.1 (F p)) hnm.2,
        lookup_setKey_other fs w p.1 (F p) hnm.1]

theorem lookup_foldl_setKey {β : Type}
    (F : String × List β → β) (t : List (String × List β)) (w : String)
    (samples : List β) (fs : List (String × β))
    (hnodup : (t.map Prod.fst).Nodup) (hmem : (w, samples) ∈ t) :
    List.lookup w (t.foldl (fun fs p => setKey fs p.1 (F p)) fs) =
      some (F (w, samples)) := by
  induction t generalizing fs with
  | nil => simp at hmem
  | cons p t ih =>
    simp only [List.map_cons, List.nodup_cons] at hnodup
    rcases List.mem_cons.mp hmem with rfl | hmem'
    · rw [List.foldl_cons]
      have hnm : w ∉ t.map Prod.fst := by simpa using hnodup.1
      rw [lookup_foldl_setKey_not_mem F t w _ hnm]
      exact lookup_setKey_self fs w (F (w, samples))
    · rw [List.foldl_cons]
      exact ih (setKey fs p.1 (F p)) hnodup.2 hmem' 

theorem lookup_map_value {β γ : Type} (f : β → γ) (l : List (String × β)) (k : String) :
    List.lookup k (l.map (fun p => (p.1, f p.2))) = (List.lookup k l).map f := by
  induction l with
  | nil => simp [List.lookup]
  | cons p t ih =>
    obtain ⟨k', v'⟩ := p
    by_cases hk : k = k'
    · subst hk
      simp only [List.map_cons]
      rw [lookup_cons_eq, lookup_cons_eq]
      rfl
    · simp only [List.map_cons]
      rw [lookup_cons_ne k k' (f v') _ hk, lookup_cons_ne k k' v' _ hk, ih]

theorem convert_ok (c c1 : Classifier ℝ)
    (h : ConvertTermsFreqToTfIdf c = .ok c1) : c1 = convertAll c := by
  unfold ConvertTermsFreqToTfIdf at h
  split_ifs at h <;> cases h <;> rfl

/-- Claim C6: for a TF-IDF classifier in which word `w` of class `cls`
has recorded term-frequency samples, converting once sets `Freqs[w]` to
`Σ_i log1p(f_i) * log1p(learned / classTotal)`, where `learned` is the
lifetime learned counter and `classTotal` the class's pre-conversion
total. -/
theorem convert_freqs_spec (c : Classifier ℝ) (cls w : String) (d : classData ℝ)
    (samples : List ℝ)
    (hnc : c.DidConvertTfIdf = false)
    (hd : List.lookup cls c.datas = some d)
    (hnodup : (d.FreqTfs.map Prod.fst).Nodup)
    (hw : List.lookup w d.FreqTfs = some samples) :
    ConvertTermsFreqToTfIdf c = .ok (convertAll c) ∧
    List.lookup w (getData (convertAll c) cls).Freqs =
      some ((samples.map (fun tf =>
        log1p tf * log1p ((c.learned : ℝ) / (d.Total : ℝ)))).sum) := by
  constructor
  · unfold ConvertTermsFreqToTfIdf
    rw [if_neg (by rw [hnc]; exact Bool.false_ne_true)]
  · have hgd : getData (convertAll c) cls = convertClassData c.learned d := by
      unfold getData convertAll
      simp only
      rw [lookup_map_value (convertClassData c.learned) c.datas cls, hd]
      rfl
    rw [hgd]
    unfold convertClassData
    simp only
    have hmem : (w, samples) ∈ d.FreqTfs := lookup_mem _ _ _ hw
    rw [lookup_foldl_setKey (fun p => ((p.2.map (tfIdfWeight c.learned d.Total)).sum))
      d.FreqTfs w samples d.Freqs hnodup hmem]
    rfl

/-- Witness for C6 at a concrete TF-IDF classifier with two recorded
samples for `w` in class `B`. -/
theorem convert_freqs_spec_witness :
    (wt1.DidConvertTfIdf = false ∧
     List.lookup "B" wt1.datas = some ⟨[("w", 9 / 10)], [("w", [1 / 2, 1 / 3])], 6⟩ ∧
     ((⟨[("w", 9 / 10)], [("w", [1 / 2, 1 / 3])], 6⟩ : classData ℝ).FreqTfs.map Prod.fst).Nodup ∧
     List.lookup "w" (⟨[("w", 9 / 10)], [("w", [1 / 2, 1 / 3])], 6⟩ : classData ℝ).FreqTfs =
       some [1 / 2, 1 / 3]) ∧
    (ConvertTermsFreqToTfIdf wt1 = .ok (convertAll wt1) ∧
     List.lookup "w" (getData (convertAll wt1) "B").Freqs =
       some (([(1 : ℝ) / 2, 1 / 3].map (fun tf =>
         log1p tf * log1p ((wt1.learned : ℝ) /
           (((⟨[("w", 9 / 10)], [("w", [1 / 2, 1 / 3])], 6⟩ : classData ℝ)).Total : ℝ)))).sum)) := by
  refine ⟨⟨rfl, rfl, ?_, rfl⟩, ?_⟩
  · simp
  · exact convert_freqs_spec wt1 "B" "w" ⟨[("w", 9 / 10)], [("w", [1 / 2, 1 / 3])], 6⟩
      [1 / 2, 1 / 3] rfl rfl (by simp) rfl

/-- Claim C7: on a TF-IDF classifier, a second conversion without an
intervening reset panics, all three scoring operations panic before
conversion, and learning panics after conversion.  Each failing
operation returns only the panic and no successor state: the Go checks
precede every mutation, so the classifier state is left unchanged. -/
theorem tfidf_sequencing_spec (c c1 : Classifier ℝ) (doc : List String)
    (which : String) (htf : c.tfIdf = true) :
    (ConvertTermsFreqToTfIdf c = .ok c1 →
       ConvertTermsFreqToTfIdf c1 = .error (.panicked
         ("Cannot call ConvertTermsFreqToTfIdf more than once. Reset and relearn to reconvert."))) ∧
    (c.DidConvertTfIdf = false →
       LogScores c doc = .error (.panicked
         ("Using a TF-IDF classifier. Please call ConvertTermsFreqToTfIdf before calling LogScores.")) ∧
       ProbScores c doc = .error (.panicked
         ("Using a TF-IDF classifier. Please call ConvertTermsFreqToTfIdf before calling ProbScores.")) ∧
       SafeProbScores c doc = .error (.panicked
         ("Using a TF-IDF classifier. Please call ConvertTermsFreqToTfIdf before calling SafeProbScores."))) ∧
    (c.DidConvertTfIdf = true →
       Learn c doc which = .error (.panicked
         ("Cannot call ConvertTermsFreqToTfIdf more than once. Reset and relearn to reconvert."))) := by
  refine ⟨?_, ?_, ?_⟩
  · intro h
    rw [convert_ok c c1 h]
    unfold ConvertTermsFreqToTfIdf convertAll
    rw [if_pos rfl]
  · intro h
    have hguard : notConvertedGuard c := ⟨htf, h⟩
    refine ⟨?_, ?_, ?_⟩
    · unfold LogScores
      rw [if_pos hguard]
    · unfold ProbScores
      rw [if_pos hguard]
    · unfold SafeProbScores
      rw [if_pos hguard]
  · intro h
    unfold Learn
    rw [if_pos ⟨htf, h⟩]

/-- Witness for C7 at a concrete unconverted TF-IDF classifier. -/
theorem tfidf_sequencing_spec_witness :
    wt0.tfIdf = true ∧
    ((ConvertTermsFreqToTfIdf wt0 = .ok (convertAll wt0) →
       ConvertTermsFreqToTfIdf (convertAll wt0) = .error (.panicked
         ("Cannot call ConvertTermsFreqToTfIdf more than once. Reset and relearn to reconvert."))) ∧
    (wt0.DidConvertTfIdf = false →
       LogScores wt0 ["w"] = .error (.panicked
         ("Using a TF-IDF classifier. Please call ConvertTermsFreqToTfIdf before calling LogScores.")) ∧
       ProbScores wt0 ["w"] = .error (.panicked
         ("Using a TF-IDF classifier. Please call ConvertTermsFreqToTfIdf before calling ProbScores.")) ∧
       SafeProbScores wt0 ["w"] = .error (.panicked
         ("Using a TF-IDF classifier. Please call ConvertTermsFreqToTfIdf before calling SafeProbScores."))) ∧
    (wt0.DidConvertTfIdf = true →
       Learn wt0 ["w"] "A" = .error (.panicked
         ("Cannot call ConvertTermsFreqToTfIdf more than once. Reset and relearn to reconvert.")))) :=
  ⟨rfl, tfidf_sequencing_spec wt0 (convertAll wt0) ["w"] "A" rfl⟩

/-- Claim C9: deserializing a serialized classifier restores an equal
state, and hence every scoring operation returns identical scores,
arg-max index and strictness on every document.  The gob byte codec is
Go standard library code; it is modelled through its contract that
decoding an encoded record yields the record back, while the repository
code on both sides of it (`writeGobLocked`, `NewClassifierFromReader`)
is embedded, including the int/int32 conversions on `seen`. -/
theorem gob_roundtrip_spec (c : Classifier ℝ)
    (hseen : -(2 ^ 31) ≤ c.seen ∧ c.seen < 2 ^ 31) :
    NewClassifierFromReader (writeGob c) = c ∧
    ∀ doc : List String,
      LogScores (NewClassifierFromReader (writeGob c)) doc = LogScores c doc ∧
      ProbScores (NewClassifierFromReader (writeGob c)) doc = ProbScores c doc ∧
      SafeProbScores (NewClassifierFromReader (writeGob c)) doc = SafeProbScores c doc := by
  have heq : NewClassifierFromReader (writeGob c) = c := by
    obtain ⟨cl, l, s, d, t, dc⟩ := c
    simp only at hseen
    unfold NewClassifierFromReader writeGob toInt32
    simp only [Classifier.mk.injEq, and_true, true_and]
    omega
  refine ⟨heq, fun doc => ?_⟩
  rw [heq]
  exact ⟨rfl, rfl, rfl⟩

/-- Witness for C9 at a concrete classifier whose `seen` counter is in
`int32` range. -/
theorem gob_roundtrip_spec_witness :
    (-(2 ^ 31) ≤ wr0.seen ∧ wr0.seen < 2 ^ 31) ∧
    (NewClassifierFromReader (writeGob wr0) = wr0 ∧
    ∀ doc : List String,
      LogScores (NewClassifierFromReader (writeGob wr0)) doc = LogScores wr0 doc ∧
      ProbScores (NewClassifierFromReader (writeGob wr0)) doc = ProbScores wr0 doc ∧
      SafeProbScores (NewClassifierFromReader (writeGob wr0)) doc = SafeProbScores wr0 doc) :=
  ⟨by decide, gob_roundtrip_spec wr0 (by decide)⟩
